import Mathlib

set_option maxRecDepth 8000

/-!
Verification of the table-aware chunker (`chunker.py`) of MatriXNest.

Texts are modelled as `List Char`; Python's `"\n".join`, `str.split("\n")`,
`str.strip()` and the two line classifiers are embedded directly from the
source.  Dictionaries (`Chunk` values and the base-metadata argument) are
modelled as functions `String → Option PyVal`.
-/

/-- Python values occurring in the chunker's dictionaries. -/
inductive PyVal where
  | str (s : List Char)
  | intg (n : Int)
  | null
deriving DecidableEq, Repr

/-- ASCII whitespace stripped by Python's `str.strip()` (and matched by `\s`):
space, tab, newline, carriage return, vertical tab, form feed. -/
def pyWS (c : Char) : Bool :=
  c == ' ' || c == '\t' || c == '\n' || c == '\r' || c == '\x0b' || c == '\x0c'

/-- Python `str.strip()`: drops leading and trailing whitespace. -/
def stripPy (l : List Char) : List Char :=
  ((l.dropWhile pyWS).reverse.dropWhile pyWS).reverse

/-- Python `text.split("\n")`: splits at every newline, keeping empty pieces;
the empty string splits to `[""]`. -/
def splitNL : List Char → List (List Char)
  | [] => [[]]
  | c :: cs =>
    if c = '\n' then [] :: splitNL cs
    else
      match splitNL cs with
      | [] => [[c]]
      | l :: ls => (c :: l) :: ls

/-- Suffix part of Python `"\n".join`: a newline before every element. -/
def pjoinNL : List (List Char) → List Char
  | [] => []
  | t :: ts => '\n' :: (t ++ pjoinNL ts)

/-- Python `"\n".join(lines)`. -/
def joinNL : List (List Char) → List Char
  | [] => []
  | t :: ts => t ++ pjoinNL ts

/-- `sum(len(l) + 1 for l in lines)` (chunker.py line 181). -/
def sumSize : List (List Char) → Nat
  | [] => 0
  | l :: ls => l.length + 1 + sumSize ls

/-- `_is_table_row` (chunker.py line 14): `"|" in line and line.strip().startswith("|")`. -/
def is_table_row (line : List Char) : Bool :=
  decide ('|' ∈ line) && decide ((stripPy line).head? = some '|')

/-- Characters of the regex class `[\s\-:]`. -/
def sepChar (c : Char) : Bool :=
  c == '-' || c == ':' || pyWS c

/-- `_is_table_separator` (chunker.py line 18):
`bool(re.match(r"^\|[\s\-:]+\|", line.strip()))`.  The regex is anchored only
at the start: it holds iff the stripped line begins with `|`, then a nonempty
run of `[\s\-:]` characters, then another `|`; any remaining characters are
unconstrained.  Since `|` is not in the class, the greedy run is exactly
`takeWhile sepChar`; theorem `C6_amended` below proves this definition
equivalent to the declarative decomposition. -/
def is_table_separator (line : List Char) : Bool :=
  let s := stripPy line
  if s.head? = some '|' then
    !(s.tail.takeWhile sepChar).isEmpty
      && decide ((s.tail.dropWhile sepChar).head? = some '|')
  else false

/-- `_is_table_header` (chunker.py line 22): the line is a table row and the
next line exists, is truthy (non-empty) and is a table separator. -/
def is_table_header (line : List Char) (next_line : Option (List Char)) : Bool :=
  if !is_table_row line then false
  else
    match next_line with
    | some nl => !nl.isEmpty && is_table_separator nl
    | none => false

/-- Loop body of `_is_table_continuation` (chunker.py lines 38-47): walk the
given lines with the accumulated stripped table rows; `none` models the early
`return False` on a heading line, `some rows` models loop exit / `break`. -/
def contLoop : List (List Char) → List (List Char) → Option (List (List Char))
  | [], acc => some acc
  | l :: ls, acc =>
    let s := stripPy l
    if s.isEmpty then contLoop ls acc
    else if is_table_row s then contLoop ls (acc ++ [s])
    else if s.head? = some '#' then none
    else some acc

/-- `_is_table_continuation` (chunker.py line 30). -/
def is_table_continuation (text : List Char) : Bool :=
  let lines := splitNL (stripPy text)
  if lines.isEmpty then false
  else
    match contLoop (lines.take 5) [] with
    | none => false
    | some rows => decide (2 ≤ rows.length) && !is_table_separator (rows.getD 1 [])

/-- Loop of `_extract_table_header` (chunker.py lines 87-93).  The local
`header_lines` list is threaded through faithfully: the source never appends
to it, so the `elif header_lines: break` arm is carried here as the
`!header_lines.isEmpty` tests. -/
def extractGo (header_lines : List (List Char)) : List (List Char) → Option (List Char)
  | [] => none
  | l :: ls =>
    if is_table_row l then
      match ls.head? with
      | some l2 =>
        if is_table_separator l2 then some (l ++ '\n' :: l2)
        else if !header_lines.isEmpty then none
        else extractGo header_lines ls
      | none =>
        if !header_lines.isEmpty then none
        else extractGo header_lines ls
    else extractGo header_lines ls

/-- `_extract_table_header` (chunker.py line 82). -/
def extract_table_header (text : List Char) : Option (List Char) :=
  extractGo [] (splitNL text)

/-- A source page: `{"page": n, "text": s}`. -/
structure Page where
  page : Int
  text : List Char
deriving DecidableEq, Repr

/-- A merged page group: `{"text": s, "start_page": a, "end_page": b}`. -/
structure PageGroup where
  text : List Char
  start_page : Int
  end_page : Int
deriving DecidableEq, Repr

/-- Loop of `merge_cross_page_tables` (chunker.py lines 105-130) with the
current `pending` group. -/
def mergeAux (pending : PageGroup) : List Page → List PageGroup
  | [] => [pending]
  | p :: ps =>
    if is_table_continuation p.text then
      mergeAux { pending with text := pending.text ++ '\n' :: p.text, end_page := p.page } ps
    else
      pending :: mergeAux { text := p.text, start_page := p.page, end_page := p.page } ps

/-- `merge_cross_page_tables` (chunker.py line 97). -/
def merge_cross_page_tables : List Page → List PageGroup
  | [] => []
  | p :: ps => mergeAux { text := p.text, start_page := p.page, end_page := p.page } ps

/-- Chunker configuration (`__init__`, chunker.py line 10).  `overlap` is
stored but, like in the source, never read by the chunking code. -/
structure ChunkerConfig where
  max_chunk_size : Int
  overlap : Int
deriving DecidableEq, Repr

/-- The computed fields of one emitted chunk dictionary
(chunker.py lines 165-170): `text`, `section`, `table_header`. -/
structure ChunkRec where
  text : List Char
  section_ : PyVal
  table_header : Option (List Char)
deriving DecidableEq, Repr

/-- Section update (chunker.py lines 149-150):
`current_section = line.strip().lstrip("#").strip()` when the stripped line
starts with `#`. -/
def updSection (sec : PyVal) (line : List Char) : PyVal :=
  if (stripPy line).head? = some '#' then
    PyVal.str (stripPy ((stripPy line).dropWhile (fun c => c == '#')))
  else sec

/-- Table-header update (chunker.py lines 153-155). -/
def updHeader (hdr : Option (List Char)) (line : List Char)
    (next_line : Option (List Char)) : Option (List Char) :=
  if is_table_header line next_line then some (line ++ '\n' :: next_line.getD [])
  else hdr

/-- The chunker's loop state: accumulated output plus the mutable locals of
`chunk_with_table_context`. -/
structure ChunkState where
  current_section : PyVal
  current_table_header : Option (List Char)
  current_chunk_lines : List (List Char)
  current_size : Nat
  chunks : List ChunkRec
deriving DecidableEq, Repr

/-- Buffer reset after a flush (chunker.py lines 172-179): keep the last 5
lines, and prepend the table header's lines when the triggering line is a
table row and a (truthy) header is set. -/
def resetBuf (hdr : Option (List Char)) (line : List Char)
    (buf : List (List Char)) : List (List Char) :=
  let keep := buf.drop (buf.length - 5)
  match hdr with
  | some h => if !h.isEmpty && is_table_row line then splitNL h ++ keep else keep
  | none => keep

/-- One iteration of the scan (chunker.py lines 146-181), given the current
line and the lookahead `lines[i+1]`. -/
def chunkStep (cfg : ChunkerConfig) (st : ChunkState) (line : List Char)
    (next_line : Option (List Char)) : ChunkState :=
  if cfg.max_chunk_size ≤ ((st.current_size + line.length + 1 : Nat) : Int) then
    { current_section := updSection st.current_section line
      current_table_header := updHeader st.current_table_header line next_line
      current_chunk_lines := resetBuf (updHeader st.current_table_header line next_line)
        line (st.current_chunk_lines ++ [line])
      current_size := sumSize (resetBuf (updHeader st.current_table_header line next_line)
        line (st.current_chunk_lines ++ [line]))
      chunks := st.chunks ++
        [{ text := joinNL (st.current_chunk_lines ++ [line])
           section_ := updSection st.current_section line
           table_header := updHeader st.current_table_header line next_line }] }
  else
    { current_section := updSection st.current_section line
      current_table_header := updHeader st.current_table_header line next_line
      current_chunk_lines := st.current_chunk_lines ++ [line]
      current_size := st.current_size + line.length + 1
      chunks := st.chunks }

/-- The whole `while` loop (chunker.py lines 145-183). -/
def chunkLoop (cfg : ChunkerConfig) : ChunkState → List (List Char) → ChunkState
  | st, [] => st
  | st, l :: ls => chunkLoop cfg (chunkStep cfg st l ls.head?) ls

/-- A Python dictionary with string keys. -/
def PyDict := String → Option PyVal

/-- Initial loop state (chunker.py lines 136-142):
`current_section = metadata.get("section", "")`. -/
def initState (m : PyDict) : ChunkState :=
  { current_section := (m "section").getD (PyVal.str [])
    current_table_header := none
    current_chunk_lines := []
    current_size := 0
    chunks := [] }

/-- `chunk_with_table_context` up to dictionary construction: the list of
emitted chunks' computed fields, including the trailing-buffer chunk
(chunker.py lines 186-194). -/
def chunkRecs (cfg : ChunkerConfig) (text : List Char) (m : PyDict) : List ChunkRec :=
  let fin := chunkLoop cfg (initState m) (splitNL text)
  if fin.current_chunk_lines.isEmpty then fin.chunks
  else if (stripPy (joinNL fin.current_chunk_lines)).isEmpty then fin.chunks
  else fin.chunks ++
    [{ text := joinNL fin.current_chunk_lines
       section_ := fin.current_section
       table_header := fin.current_table_header }]

/-- Dictionary built for one chunk (chunker.py lines 165-170):
`{"text": ..., "section": ..., "table_header": ..., **metadata}` — the spread
metadata comes last, so its entries override the computed ones. -/
def chunkDict (c : ChunkRec) (m : PyDict) : PyDict :=
  fun k =>
    match m k with
    | some v => some v
    | none =>
      if k = "text" then some (PyVal.str c.text)
      else if k = "section" then some c.section_
      else if k = "table_header" then some ((c.table_header.map PyVal.str).getD PyVal.null)
      else none

/-- `chunk_with_table_context` (chunker.py line 134). -/
def chunk_with_table_context (cfg : ChunkerConfig) (text : List Char) (m : PyDict) :
    List PyDict :=
  (chunkRecs cfg text m).map (fun c => chunkDict c m)

/-- `process_pages` (chunker.py line 198). -/
def process_pages (cfg : ChunkerConfig) (pages : List Page) : List PyDict :=
  (merge_cross_page_tables pages).flatMap (fun g =>
    chunk_with_table_context cfg g.text (fun k =>
      if k = "start_page" then some (PyVal.intg g.start_page)
      else if k = "end_page" then some (PyVal.intg g.end_page)
      else none))

/-! ### Spec-side definitions (for comparison with the embedded code) -/

/-- Follows the words of claim C2: inspect up to the first 5 non-blank lines
(skipping blank lines entirely); NOT a continuation whenever the first
non-blank line starts with a heading marker (only the first); otherwise a
continuation exactly when at least 2 consecutive table rows were collected
and the second is not a table separator. -/
def spec_is_table_continuation (text : List Char) : Bool :=
  let N := (((splitNL text).map stripPy).filter (fun l => !l.isEmpty)).take 5
  match N with
  | [] => false
  | first :: _ =>
    if first.head? = some '#' then false
    else
      let rows := N.takeWhile is_table_row
      decide (2 ≤ rows.length) && !is_table_separator (rows.getD 1 [])

/-- Follows the words of claim C5: scan the lines; at the first table row,
return it joined with the following separator if that pair forms a header,
and null otherwise (no such pair before the first non-header table row). -/
def spec_extract_go : List (List Char) → Option (List Char)
  | [] => none
  | l :: ls =>
    if is_table_row l then
      match ls.head? with
      | some l2 => if is_table_separator l2 then some (l ++ '\n' :: l2) else none
      | none => none
    else spec_extract_go ls

/-- Follows the words of claim C5 (entry point). -/
def spec_extract_table_header (text : List Char) : Option (List Char) :=
  spec_extract_go (splitNL text)

/-- Follows the words of claim C6: a table row consisting only of dashes,
colons, and whitespace between pipes over its entire length. -/
def spec_is_table_separator_full (line : List Char) : Bool :=
  is_table_row line && (stripPy line).all (fun c => c == '|' || sepChar c)

/-! ### Invariants used by the chunker proofs -/

/-- `current_size` tracks the buffer size, and every already-flushed chunk's
text reached the configured bound. -/
def sizeInv (cfg : ChunkerConfig) (st : ChunkState) : Prop :=
  st.current_size = sumSize st.current_chunk_lines ∧
  ∀ c ∈ st.chunks, cfg.max_chunk_size ≤ (c.text.length : Int) + 1

/-- No table header has been captured and none was emitted. -/
def hdrInv (st : ChunkState) : Prop :=
  st.current_table_header = none ∧ ∀ c ∈ st.chunks, c.table_header = none

/-! ### Concrete inputs used by witnesses and counterexamples -/

/-- The empty base-metadata dictionary. -/
def emptyDict : PyDict := fun _ => none

/-- Default chunk used with `List.getD`. -/
def dfltChunk : ChunkRec := { text := [], section_ := PyVal.str [], table_header := none }

/-- Two table rows followed by a heading line (claim C2). -/
def tC2 : List Char := "|a|b|\n|c|d|\n# X".data

/-- A data row, then a header row with its separator (claim C5). -/
def tC5 : List Char := "|d|1|\n|h|x|\n|---|---|".data

/-- A separator-like prefix followed by other cell content (claim C6). -/
def tC6 : List Char := "|---| data |".data

/-- Three prose lines of 8 characters each (claim C4). -/
def tC4 : List Char := joinNL [List.replicate 8 'a', List.replicate 8 'b', List.replicate 8 'c']

/-- A tiny table followed by six prose lines (claim C7): chunked at bound 12,
the sixth emitted chunk contains no pipe at all yet carries the stale
table header. -/
def tC7 : List Char :=
  joinNL ["|a|".data, "|-|".data, "aaa".data, "bbb".data, "ccc".data,
    "ddd".data, "eee".data, "fff".data]

/-- Pipe-free two-line text (witness for claim C7). -/
def tC7w : List Char := "hello\nworld".data

/-- A prose line, a heading, a prose line (claim C8): at bound 8, the first
chunk's content starts before the heading but is flushed after it. -/
def tC8 : List Char := "aaaa\n# H\nbbbb".data

/-- Two short lines (witness for claim C10). -/
def tC10 : List Char := "aaaa\nbbbb".data

/-- Base metadata carrying a colliding `"text"` key (witness for claim C10). -/
def dC10 : PyDict := fun k => if k = "text" then some (PyVal.str ['X']) else none

/-- 78-character table header row (claim C3). -/
def rowHC3 : List Char := '|' :: (List.replicate 76 'h' ++ ['|'])

/-- 78-character table separator row (claim C3). -/
def sepC3 : List Char := '|' :: (List.replicate 76 '-' ++ ['|'])

/-- 78-character table data row (claim C3). -/
def rowAC3 : List Char := '|' :: (List.replicate 76 'a' ++ ['|'])

/-- 119-character table data row (claim C3). -/
def rowLongC3 : List Char := '|' :: (List.replicate 117 'a' ++ ['|'])

/-- The 40 lines of the claim-C3 page group: header row, separator, then 38
data rows; total character count 3201 + the 39 joining newlines... i.e. the
joined text has length 3200. -/
def linesC3 : List (List Char) :=
  rowHC3 :: sepC3 :: (List.replicate 37 rowAC3 ++ [rowLongC3])

/-- A 3200-character page-group text that is one table: header row, separator,
then 38 data rows (claim C3). -/
def tC3 : List Char := joinNL linesC3

/-- The two-line header of `tC3`. -/
def hdrC3 : List Char := rowHC3 ++ '\n' :: sepC3

/-- 3-character header row of the claim-C3 counterexample group. -/
def rowH3b : List Char := "|h|".data

/-- 3-character separator row of the claim-C3 counterexample group. -/
def sep3b : List Char := "|-|".data

/-- A 3192-character table data row (claim C3 counterexample). -/
def bigRowC3 : List Char := '|' :: (List.replicate 3190 'a' ++ ['|'])

/-- The two-line header of `tC3bad`. -/
def hdr3b : List Char := rowH3b ++ '\n' :: sep3b

/-- A 3200-character page-group text that is one table: 3-character header
row, 3-character separator, one 3192-character data row (claim C3
counterexample). -/
def tC3bad : List Char := joinNL [rowH3b, sep3b, bigRowC3]

/-! ### Helper lemmas about `joinNL` -/

theorem pjoinNL_append (l₁ l₂ : List (List Char)) :
    pjoinNL (l₁ ++ l₂) = pjoinNL l₁ ++ pjoinNL l₂ := by
  induction l₁ with
  | nil => simp [pjoinNL]
  | cons a l ih => simp [pjoinNL, ih]

theorem joinNL_snoc (a t : List Char) (l : List (List Char)) :
    joinNL ((a :: l) ++ [t]) = joinNL (a :: l) ++ '\n' :: t := by
  simp [joinNL, pjoinNL_append, pjoinNL]

theorem pjoinNL_map_join (parts : List (List (List Char))) (h : [] ∉ parts) :
    pjoinNL (parts.map joinNL) = pjoinNL parts.flatten := by
  induction parts with
  | nil => rfl
  | cons a parts ih =>
    have ha : a ≠ [] := by intro e; exact h (by simp [e])
    have htl : [] ∉ parts := fun hm => h (List.mem_cons_of_mem _ hm)
    obtain ⟨x, xs, rfl⟩ := List.exists_cons_of_ne_nil ha
    simp [pjoinNL, joinNL, pjoinNL_append, ih htl]

theorem joinNL_map_join (parts : List (List (List Char))) (h : [] ∉ parts) :
    joinNL (parts.map joinNL) = joinNL parts.flatten := by
  cases parts with
  | nil => rfl
  | cons a parts =>
    have ha : a ≠ [] := by intro e; exact h (by simp [e])
    have htl : [] ∉ parts := fun hm => h (List.mem_cons_of_mem _ hm)
    obtain ⟨x, xs, rfl⟩ := List.exists_cons_of_ne_nil ha
    simp [joinNL, pjoinNL, pjoinNL_append, pjoinNL_map_join parts htl]

/-! ### Claim C1: the merger neither drops, duplicates, nor reorders text -/

theorem mergeAux_parts (ps : List Page) :
    ∀ (pend : PageGroup) (seg : List (List Char)), seg ≠ [] → pend.text = joinNL seg →
    ∃ parts : List (List (List Char)),
      [] ∉ parts ∧ parts.flatten = seg ++ ps.map Page.text ∧
      (mergeAux pend ps).map PageGroup.text = parts.map joinNL := by
  induction ps with
  | nil =>
    intro pend seg hseg hpend
    refine ⟨[seg], ?_, by simp, by simp [mergeAux, hpend]⟩
    simpa using Ne.symm hseg
  | cons p ps ih =>
    intro pend seg hseg hpend
    by_cases hc : is_table_continuation p.text
    · obtain ⟨x, xs, rfl⟩ := List.exists_cons_of_ne_nil hseg
      have h2 : ({ pend with text := pend.text ++ '\n' :: p.text, end_page := p.page } :
          PageGroup).text = joinNL ((x :: xs) ++ [p.text]) := by
        show pend.text ++ '\n' :: p.text = _
        rw [hpend, joinNL_snoc]
      obtain ⟨parts, hnp, hjoin, hmap⟩ := ih _ ((x :: xs) ++ [p.text]) (by simp) h2
      refine ⟨parts, hnp, ?_, ?_⟩
      · rw [hjoin]; simp
      · simpa [mergeAux, hc] using hmap
    · obtain ⟨parts, hnp, hjoin, hmap⟩ :=
        ih { text := p.text, start_page := p.page, end_page := p.page } [p.text]
          (by simp) (by simp [joinNL, pjoinNL])
      refine ⟨seg :: parts, ?_, ?_, ?_⟩
      · intro hm
        rcases List.mem_cons.mp hm with h1 | h1
        · exact hseg h1.symm
        · exact hnp h1
      · simp [hjoin]
      · simp [mergeAux, hc, hpend, hmap]

/-- Claim C1: concatenating the texts of the merger's output PageGroups, in
order and joined by a newline, reproduces the newline-join of all input
pages' text in input order; moreover the output texts are exactly the
newline-joins of a partition of the input page texts into nonempty runs of
consecutive pages (so no page text is dropped, duplicated, or reordered). -/
theorem C1_merge_preserves_text (pages : List Page) :
    ∃ parts : List (List (List Char)),
      [] ∉ parts
      ∧ parts.flatten = pages.map Page.text
      ∧ (merge_cross_page_tables pages).map PageGroup.text = parts.map joinNL
      ∧ joinNL ((merge_cross_page_tables pages).map PageGroup.text)
          = joinNL (pages.map Page.text) := by
  cases pages with
  | nil => refine ⟨[], ?_, ?_, ?_, ?_⟩ <;> simp [merge_cross_page_tables]
  | cons p ps =>
    obtain ⟨parts, hnp, hjoin, hmap⟩ :=
      mergeAux_parts ps { text := p.text, start_page := p.page, end_page := p.page }
        [p.text] (by simp) (by simp [joinNL, pjoinNL])
    have hmerge : merge_cross_page_tables (p :: ps)
        = mergeAux { text := p.text, start_page := p.page, end_page := p.page } ps := rfl
    refine ⟨parts, hnp, by simpa using hjoin, ?_, ?_⟩
    · rw [hmerge]; exact hmap
    · rw [hmerge, hmap, joinNL_map_join parts hnp, hjoin]; simp

/-! ### Claim C2: the continuation classifier -/

theorem splitNL_ne_nil (t : List Char) : splitNL t ≠ [] := by
  induction t with
  | nil => simp [splitNL]
  | cons c cs ih =>
    by_cases h : c = '\n'
    · simp [splitNL, h]
    · rcases e : splitNL cs with _ | ⟨l, ls⟩ <;> simp [splitNL, h, e]

/-- Declarative characterization of the loop of `_is_table_continuation`:
over the non-blank stripped lines the collected rows are the longest table-row
prefix, and the early `return False` fires exactly when the line that stops
that prefix starts with `#`. -/
theorem contLoop_eq (ls : List (List Char)) :
    ∀ acc : List (List Char),
    contLoop ls acc =
      (let L := (ls.map stripPy).filter (fun l => !l.isEmpty)
       let rows := L.takeWhile is_table_row
       if (((L.drop rows.length).head?.map (fun s => decide (s.head? = some '#'))).getD false)
       then none
       else some (acc ++ rows)) := by
  induction ls with
  | nil => intro acc; simp [contLoop]
  | cons l ls ih =>
    intro acc
    by_cases h0 : (stripPy l).isEmpty
    · simp only [contLoop, h0, if_true, List.map_cons, List.filter_cons, Bool.not_true,
        Bool.false_eq_true, if_false]
      exact ih acc
    · by_cases h1 : is_table_row (stripPy l)
      · simp only [contLoop, h0, if_false, h1, if_true, List.map_cons, List.filter_cons,
          Bool.not_eq_true', Bool.not_false, Bool.false_eq_true]
        rw [ih (acc ++ [stripPy l])]
        simp [h0, h1, List.takeWhile_cons]
      · by_cases h2 : (stripPy l).head? = some '#'
        · simp [contLoop, h0, h1, h2, List.filter_cons, List.takeWhile_cons]
        · simp [contLoop, h0, h1, h2, List.filter_cons, List.takeWhile_cons]

/-- Claim C2 (amended): the classifier inspects the first 5 raw lines of the
whitespace-stripped text (blank lines among those 5 are skipped but still
consume the window); the collected rows are the longest table-row prefix of
the non-blank stripped lines in that window; if the non-blank line at which
collection stops starts with `#` — at any position, not only the first — the
page is not a continuation; otherwise it is a continuation exactly when at
least 2 rows were collected and the second is not a table separator. -/
theorem C2_amended (text : List Char) :
    is_table_continuation text =
      (let L := (((splitNL (stripPy text)).take 5).map stripPy).filter (fun l => !l.isEmpty)
       let rows := L.takeWhile is_table_row
       if (((L.drop rows.length).head?.map (fun s => decide (s.head? = some '#'))).getD false)
       then false
       else decide (2 ≤ rows.length) && !is_table_separator (rows.getD 1 [])) := by
  have h5 : (splitNL (stripPy text)).isEmpty = false := by
    rcases e : splitNL (stripPy text) with _ | ⟨a, l⟩
    · exact absurd e (splitNL_ne_nil _)
    · rfl
  have key := contLoop_eq ((splitNL (stripPy text)).take 5) []
  simp only [is_table_continuation, h5, Bool.false_eq_true, if_false, key, List.nil_append]
  generalize (((splitNL (stripPy text)).take 5).map stripPy).filter (fun l => !l.isEmpty) = L
  generalize L.takeWhile is_table_row = rows
  cases ((L.drop rows.length).head?.map (fun s => decide (s.head? = some '#'))).getD false
  · simp
  · simp

/-- Counterexample to claim C2 as stated: on `"|a|b|\n|c|d|\n# X"` the code
returns `False` (the heading line is reached after two collected rows and
still triggers the early `return False`), while the claim's reading — heading
rule only at the first non-blank line, other non-row lines merely stop
collection — classifies it as a continuation. -/
theorem C2_counterexample :
    is_table_continuation tC2 = false ∧ spec_is_table_continuation tC2 = true := by
  decide

/-! ### Claim C5: table-header extraction -/

theorem extractGo_nil_acc (ls : List (List Char)) :
    extractGo [] ls =
      ((ls.zip ls.tail).find? (fun p => is_table_row p.1 && is_table_separator p.2)).map
        (fun p => p.1 ++ '\n' :: p.2) := by
  induction ls with
  | nil => rfl
  | cons l ls ih =>
    cases ls with
    | nil => by_cases h : is_table_row l <;> simp [extractGo, h]
    | cons l2 ls2 =>
      by_cases h : is_table_row l
      · by_cases h2 : is_table_separator l2
        · simp [extractGo, h, h2, List.find?_cons]
        · have e1 : extractGo [] (l :: l2 :: ls2) = extractGo [] (l2 :: ls2) := by
            simp [extractGo, h, h2]
          rw [e1, ih]
          simp [List.find?_cons, List.zip_cons_cons, h, h2]
      · have e1 : extractGo [] (l :: l2 :: ls2) = extractGo [] (l2 :: ls2) := by
          simp [extractGo, h]
        rw [e1, ih]
        simp [List.find?_cons, List.zip_cons_cons, h]

/-- Claim C5 (amended): `_extract_table_header` returns the first adjacent
pair of lines whose first element is a table row and whose second is a table
separator, joined by a newline — scanning past earlier non-header table rows,
because the local `header_lines` in the source is never appended to, so the
`break` arm is dead — and null only when no such adjacent pair exists
anywhere in the text. -/
theorem C5_amended (text : List Char) :
    extract_table_header text =
      (((splitNL text).zip (splitNL text).tail).find?
          (fun p => is_table_row p.1 && is_table_separator p.2)).map
        (fun p => p.1 ++ '\n' :: p.2) :=
  extractGo_nil_acc (splitNL text)

/-- Counterexample to claim C5 as stated: in `"|d|1|\n|h|x|\n|---|---|"` the
first table row is a data row not followed by a separator, so the claim says
the helper returns null; the code scans past it and returns the later
header+separator pair. -/
theorem C5_counterexample :
    extract_table_header tC5 = some ("|h|x|\n|---|---|".data)
    ∧ spec_extract_table_header tC5 = none := by
  decide

/-! ### Claim C6: the table-separator classifier -/

theorem takeWhile_pred_true (p : Char → Bool) (l : List Char) :
    ∀ c ∈ l.takeWhile p, p c = true := by
  induction l with
  | nil => simp
  | cons a l ih =>
    by_cases h : p a
    · intro c hc
      rw [List.takeWhile_cons, if_pos h] at hc
      rcases List.mem_cons.mp hc with h' | h'
      · exact h' ▸ h
      · exact ih c h'
    · intro c hc
      rw [List.takeWhile_cons, if_neg h] at hc
      exact absurd hc (List.not_mem_nil c)

theorem takeWhile_all_append (p : Char → Bool) (run t : List Char)
    (h : ∀ c ∈ run, p c = true) :
    (run ++ t).takeWhile p = run ++ t.takeWhile p := by
  induction run with
  | nil => simp
  | cons a run ih =>
    have ha : p a = true := h a (List.mem_cons_self a run)
    have ih' := ih (fun c hc => h c (List.mem_cons_of_mem _ hc))
    simp [List.takeWhile_cons, ha, ih']

theorem dropWhile_all_append (p : Char → Bool) (run t : List Char)
    (h : ∀ c ∈ run, p c = true) :
    (run ++ t).dropWhile p = t.dropWhile p := by
  induction run with
  | nil => simp
  | cons a run ih =>
    have ha : p a = true := h a (List.mem_cons_self a run)
    have ih' := ih (fun c hc => h c (List.mem_cons_of_mem _ hc))
    simp [List.dropWhile_cons, ha, ih']

/-- Claim C6 (amended): `_is_table_separator` accepts a line iff its trimmed
form starts with `|`, followed by a nonempty run of dashes, colons and
whitespace, followed by another `|` — a prefix condition only: any characters
may follow that second pipe, because the source regex is unanchored at the
end. -/
theorem C6_amended (line : List Char) :
    is_table_separator line = true ↔
      ∃ run rest, stripPy line = '|' :: (run ++ '|' :: rest)
        ∧ run ≠ [] ∧ ∀ c ∈ run, sepChar c = true := by
  constructor
  · intro h
    rcases e : stripPy line with _ | ⟨c, cs⟩
    · simp [is_table_separator, e] at h
    · by_cases hc : c = '|'
      · subst hc
        simp only [is_table_separator, e, List.head?_cons, List.tail_cons, Option.some_inj,
          if_true, Bool.and_eq_true, Bool.not_eq_true', List.isEmpty_eq_false,
          decide_eq_true_eq] at h
        obtain ⟨h1, h2⟩ := h
        rcases ed : cs.dropWhile sepChar with _ | ⟨d, ds⟩
        · rw [ed] at h2; simp at h2
        · rw [ed] at h2
          simp only [List.head?_cons, Option.some_inj] at h2
          refine ⟨cs.takeWhile sepChar, ds, ?_, ?_, takeWhile_pred_true _ _⟩
          · have hsplit := List.takeWhile_append_dropWhile (p := sepChar) (l := cs)
            rw [ed, h2] at hsplit
            rw [hsplit]
          · intro hne
            rw [hne] at h1
            exact absurd rfl h1
      · simp [is_table_separator, e, hc] at h
  · rintro ⟨run, rest, he, hne, hall⟩
    have hpipe : sepChar '|' = false := by decide
    simp only [is_table_separator, he, List.head?_cons, List.tail_cons]
    rw [takeWhile_all_append sepChar run ('|' :: rest) hall]
    rw [dropWhile_all_append sepChar run ('|' :: rest) hall]
    simp [List.takeWhile_cons, List.dropWhile_cons, hpipe, hne]

/-- Counterexample to claim C6 as stated: `"|---| data |"` is accepted by the
code's separator test (the regex matches the `|---|` prefix) although it is
not a row consisting only of dashes, colons and whitespace between pipes over
its entire length. -/
theorem C6_counterexample :
    is_table_separator tC6 = true ∧ spec_is_table_separator_full tC6 = false := by
  decide

/-! ### Chunker step lemmas -/

theorem chunkStep_section (cfg : ChunkerConfig) (st : ChunkState) (l : List Char)
    (n : Option (List Char)) :
    (chunkStep cfg st l n).current_section = updSection st.current_section l := by
  unfold chunkStep
  by_cases h : cfg.max_chunk_size ≤ ((st.current_size + l.length + 1 : Nat) : Int)
  · rw [if_pos h]
  · rw [if_neg h]

theorem chunkStep_header (cfg : ChunkerConfig) (st : ChunkState) (l : List Char)
    (n : Option (List Char)) :
    (chunkStep cfg st l n).current_table_header = updHeader st.current_table_header l n := by
  unfold chunkStep
  by_cases h : cfg.max_chunk_size ≤ ((st.current_size + l.length + 1 : Nat) : Int)
  · rw [if_pos h]
  · rw [if_neg h]

theorem chunkStep_chunks (cfg : ChunkerConfig) (st : ChunkState) (l : List Char)
    (n : Option (List Char)) :
    (chunkStep cfg st l n).chunks = st.chunks
    ∨ (chunkStep cfg st l n).chunks = st.chunks ++
        [{ text := joinNL (st.current_chunk_lines ++ [l])
           section_ := updSection st.current_section l
           table_header := updHeader st.current_table_header l n }] := by
  unfold chunkStep
  by_cases h : cfg.max_chunk_size ≤ ((st.current_size + l.length + 1 : Nat) : Int)
  · right; rw [if_pos h]
  · left; rw [if_neg h]

theorem chunkStep_flush_iff (cfg : ChunkerConfig) (st : ChunkState) (l : List Char)
    (n : Option (List Char)) :
    (chunkStep cfg st l n).chunks ≠ st.chunks ↔
      cfg.max_chunk_size ≤ ((st.current_size + l.length + 1 : Nat) : Int) := by
  by_cases h : cfg.max_chunk_size ≤ ((st.current_size + l.length + 1 : Nat) : Int)
  · refine ⟨fun _ => h, fun _ he => ?_⟩
    unfold chunkStep at he
    rw [if_pos h] at he
    have hl := congrArg List.length he
    simp at hl
  · unfold chunkStep
    rw [if_neg h]
    constructor
    · intro he; exact absurd rfl he
    · intro hc; exact absurd hc h

theorem chunkLoop_section (cfg : ChunkerConfig) (ls : List (List Char)) :
    ∀ st : ChunkState,
    (chunkLoop cfg st ls).current_section = ls.foldl updSection st.current_section := by
  induction ls with
  | nil => intro st; rfl
  | cons l ls ih =>
    intro st
    simp only [chunkLoop, List.foldl_cons]
    rw [ih, chunkStep_section]

/-! ### Claim C8: the `section` field -/

/-- Claim C8 (amended): the `section` of an emitted chunk is the most recently
seen structural heading at the point the chunk is flushed — i.e. after
processing the chunk's final line — not at the point its content begins: every
step either leaves the output unchanged or appends a chunk whose section is
the state's section updated through that very line, and the section state
after consuming any line sequence is the fold of the heading updates over all
consumed lines. -/
theorem C8_amended (cfg : ChunkerConfig) (st : ChunkState) (l : List Char)
    (n : Option (List Char)) (ls : List (List Char)) :
    ((chunkStep cfg st l n).current_section = updSection st.current_section l)
    ∧ ((chunkStep cfg st l n).chunks = st.chunks
        ∨ (chunkStep cfg st l n).chunks = st.chunks ++
            [{ text := joinNL (st.current_chunk_lines ++ [l])
               section_ := updSection st.current_section l
               table_header := updHeader st.current_table_header l n }])
    ∧ (chunkLoop cfg st ls).current_section = ls.foldl updSection st.current_section :=
  ⟨chunkStep_section cfg st l n, chunkStep_chunks cfg st l n, chunkLoop_section cfg ls st⟩

/-- Counterexample to claim C8 as stated: on the group `"aaaa\n# H\nbbbb"`
with `max_chunk_size = 8` and empty metadata, the first chunk's content is
`"aaaa\n# H"` — it begins at the very start of the group, before any heading,
so the claim requires `section = ""` — yet the code emits `section = "H"`,
the heading seen by the time the chunk is flushed. -/
theorem C8_counterexample :
    ((chunkRecs { max_chunk_size := 8, overlap := 200 } tC8 emptyDict).map
        (fun c => c.section_))
      = [PyVal.str ['H'], PyVal.str ['H'], PyVal.str ['H']]
    ∧ ((chunkRecs { max_chunk_size := 8, overlap := 200 } tC8 emptyDict).getD 0
        dfltChunk).text = "aaaa\n# H".data
    ∧ tC8 = "aaaa\n# H".data ++ '\n' :: "bbbb".data
    ∧ emptyDict "section" = none
    ∧ PyVal.str ['H'] ≠ PyVal.str [] := by
  decide

/-! ### Claim C4: chunk sizes -/

theorem sumSize_append (l₁ l₂ : List (List Char)) :
    sumSize (l₁ ++ l₂) = sumSize l₁ + sumSize l₂ := by
  induction l₁ with
  | nil => simp [sumSize]
  | cons a l ih => simp [sumSize, ih]; omega

theorem pjoinNL_length (l : List (List Char)) : (pjoinNL l).length = sumSize l := by
  induction l with
  | nil => rfl
  | cons a l ih => simp [pjoinNL, sumSize, ih]; omega

theorem joinNL_length (l : List (List Char)) (h : l ≠ []) :
    (joinNL l).length + 1 = sumSize l := by
  obtain ⟨x, xs, rfl⟩ := List.exists_cons_of_ne_nil h
  simp [joinNL, sumSize, pjoinNL_length]
  omega

theorem chunkStep_sizeInv (cfg : ChunkerConfig) (st : ChunkState) (l : List Char)
    (n : Option (List Char)) (h : sizeInv cfg st) : sizeInv cfg (chunkStep cfg st l n) := by
  obtain ⟨h1, h2⟩ := h
  have hbuf : sumSize (st.current_chunk_lines ++ [l]) = st.current_size + l.length + 1 := by
    rw [sumSize_append, h1]; simp [sumSize]; omega
  unfold chunkStep
  by_cases hc : cfg.max_chunk_size ≤ ((st.current_size + l.length + 1 : Nat) : Int)
  · rw [if_pos hc]
    refine ⟨rfl, ?_⟩
    intro c hcm
    rcases List.mem_append.mp hcm with hm | hm
    · exact h2 c hm
    · have hce : c = { text := joinNL (st.current_chunk_lines ++ [l])
                       section_ := updSection st.current_section l
                       table_header := updHeader st.current_table_header l n } := by
        simpa using hm
      subst hce
      have hne : st.current_chunk_lines ++ [l] ≠ [] := by simp
      have hlen := joinNL_length _ hne
      rw [hbuf] at hlen
      simp only []
      omega
  · rw [if_neg hc]
    exact ⟨by rw [hbuf], h2⟩

theorem chunkLoop_sizeInv (cfg : ChunkerConfig) (ls : List (List Char)) :
    ∀ st : ChunkState, sizeInv cfg st → sizeInv cfg (chunkLoop cfg st ls) := by
  induction ls with
  | nil => intro st h; exact h
  | cons l ls ih =>
    intro st h
    exact ih _ (chunkStep_sizeInv cfg st l ls.head? h)

theorem initState_sizeInv (cfg : ChunkerConfig) (m : PyDict) : sizeInv cfg (initState m) :=
  ⟨rfl, fun c hc => absurd hc (List.not_mem_nil c)⟩

theorem chunkRecs_shape (cfg : ChunkerConfig) (text : List Char) (m : PyDict) :
    chunkRecs cfg text m = (chunkLoop cfg (initState m) (splitNL text)).chunks
    ∨ ∃ c, chunkRecs cfg text m
        = (chunkLoop cfg (initState m) (splitNL text)).chunks ++ [c] := by
  unfold chunkRecs
  by_cases h1 : (chunkLoop cfg (initState m) (splitNL text)).current_chunk_lines.isEmpty
  · left; simp [h1]
  · by_cases h2 : (stripPy (joinNL
        (chunkLoop cfg (initState m) (splitNL text)).current_chunk_lines)).isEmpty
    · left; simp [h1, h2]
    · right
      refine ⟨{ text := joinNL (chunkLoop cfg (initState m) (splitNL text)).current_chunk_lines
                section_ := (chunkLoop cfg (initState m) (splitNL text)).current_section
                table_header :=
                  (chunkLoop cfg (initState m) (splitNL text)).current_table_header }, ?_⟩
      simp [h1, h2]

/-- Claim C4 (amended): the chunker checks the bound once after each line is
appended, so a step flushes a chunk exactly when the updated running count
reaches or exceeds `max_chunk_size`; consequently every chunk emitted by the
scan loop (all chunks except possibly the trailing-buffer one) has text length
at least `max_chunk_size - 1`.  The claimed upper bound fails: because the
buffer retained after a flush (5-line overlap plus re-injected header) is not
trimmed to the bound, an emitted chunk may exceed `max_chunk_size` by more
than the length of the line that triggered the flush. -/
theorem C4_amended (cfg : ChunkerConfig) (text : List Char) (m : PyDict)
    (st : ChunkState) (l : List Char) (n : Option (List Char)) :
    (((chunkLoop cfg (initState m) (splitNL text)).chunks.all
        (fun c => decide (cfg.max_chunk_size ≤ (c.text.length : Int) + 1))) = true)
    ∧ (chunkRecs cfg text m = (chunkLoop cfg (initState m) (splitNL text)).chunks
        ∨ ∃ c, chunkRecs cfg text m
            = (chunkLoop cfg (initState m) (splitNL text)).chunks ++ [c])
    ∧ ((chunkStep cfg st l n).chunks ≠ st.chunks ↔
        cfg.max_chunk_size ≤ ((st.current_size + l.length + 1 : Nat) : Int)) := by
  refine ⟨?_, chunkRecs_shape cfg text m, chunkStep_flush_iff cfg st l n⟩
  rw [List.all_eq_true]
  intro c hc
  rw [decide_eq_true_eq]
  exact (chunkLoop_sizeInv cfg (splitNL text) (initState m)
    (initState_sizeInv cfg m)).2 c hc

/-- Counterexample to claim C4 as stated: chunking `"aaaaaaaa\nbbbbbbbb\ncccccccc"`
(three 8-character lines) with `max_chunk_size = 10` emits a second chunk of
length 26 whose final (triggering) line has length 8; the chunk exceeds the
bound by 16 > 8, because the 5-line overlap kept the whole previous buffer. -/
theorem C4_counterexample :
    ((chunkRecs { max_chunk_size := 10, overlap := 200 } tC4 emptyDict).getD 1
        dfltChunk).text.length = 26
    ∧ ((splitNL ((chunkRecs { max_chunk_size := 10, overlap := 200 } tC4
        emptyDict).getD 1 dfltChunk).text).getLastD []).length = 8
    ∧ 10 + 8 < 26 := by
  decide

/-! ### Claim C7: the `table_header` field -/

theorem splitNL_subset (t : List Char) :
    ∀ l ∈ splitNL t, ∀ c ∈ l, c ∈ t := by
  induction t with
  | nil =>
    intro l hl c hc
    simp [splitNL] at hl
    subst hl
    exact absurd hc (List.not_mem_nil c)
  | cons a cs ih =>
    intro l hl c hc
    by_cases ha : a = '\n'
    · simp only [splitNL, ha, if_true] at hl
      rcases List.mem_cons.mp hl with h | h
      · subst h; exact absurd hc (List.not_mem_nil c)
      · exact List.mem_cons_of_mem _ (ih l h c hc)
    · rcases e : splitNL cs with _ | ⟨l0, ls0⟩
      · exact absurd e (splitNL_ne_nil cs)
      · simp only [splitNL, ha, if_false, e] at hl
        rcases List.mem_cons.mp hl with h | h
        · subst h
          rcases List.mem_cons.mp hc with h' | h'
          · subst h'; exact List.mem_cons_self _ _
          · exact List.mem_cons_of_mem _
              (ih l0 (by rw [e]; exact List.mem_cons_self _ _) c h')
        · exact List.mem_cons_of_mem _
            (ih l (by rw [e]; exact List.mem_cons_of_mem _ h) c hc)

theorem is_table_row_no_pipe (l : List Char) (h : '|' ∉ l) : is_table_row l = false := by
  simp [is_table_row, h]

theorem chunkStep_hdrInv (cfg : ChunkerConfig) (st : ChunkState) (l : List Char)
    (n : Option (List Char)) (hp : '|' ∉ l) (h : hdrInv st) :
    hdrInv (chunkStep cfg st l n) := by
  obtain ⟨h1, h2⟩ := h
  have hrow := is_table_row_no_pipe l hp
  have hh : is_table_header l n = false := by simp [is_table_header, hrow]
  have hupd : updHeader st.current_table_header l n = none := by simp [updHeader, hh, h1]
  unfold chunkStep
  by_cases hc : cfg.max_chunk_size ≤ ((st.current_size + l.length + 1 : Nat) : Int)
  · rw [if_pos hc]
    refine ⟨hupd, ?_⟩
    intro c hcm
    rcases List.mem_append.mp hcm with hm | hm
    · exact h2 c hm
    · have hce : c = { text := joinNL (st.current_chunk_lines ++ [l])
                       section_ := updSection st.current_section l
                       table_header := updHeader st.current_table_header l n } := by
        simpa using hm
      subst hce
      exact hupd
  · rw [if_neg hc]
    exact ⟨hupd, h2⟩

theorem chunkLoop_hdrInv (cfg : ChunkerConfig) (ls : List (List Char)) :
    ∀ st : ChunkState, (∀ l ∈ ls, '|' ∉ l) → hdrInv st → hdrInv (chunkLoop cfg st ls) := by
  induction ls with
  | nil => intro st _ h; exact h
  | cons l ls ih =>
    intro st hls h
    exact ih _ (fun x hx => hls x (List.mem_cons_of_mem _ hx))
      (chunkStep_hdrInv cfg st l ls.head? (hls l (List.mem_cons_self _ _)) h)

/-- Claim C7 (amended): for a group whose text contains no pipe character at
all, every emitted chunk has `table_header` null.  (The stronger clause of the
claim — `table_header` is null whenever a chunk contains no table content — is
false: the captured header is never reset, see the counterexample.) -/
theorem C7_amended (cfg : ChunkerConfig) (text : List Char) (m : PyDict)
    (h : '|' ∉ text) :
    ((chunkRecs cfg text m).all fun c => c.table_header.isNone) = true := by
  have hlines : ∀ l ∈ splitNL text, '|' ∉ l :=
    fun l hl hc => h (splitNL_subset text l hl '|' hc)
  have hinv : hdrInv (chunkLoop cfg (initState m) (splitNL text)) :=
    chunkLoop_hdrInv cfg (splitNL text) (initState m) hlines
      ⟨rfl, fun c hc => absurd hc (List.not_mem_nil c)⟩
  rw [List.all_eq_true]
  intro c hc
  unfold chunkRecs at hc
  dsimp only at hc
  split_ifs at hc with h1 h2
  · rw [hinv.2 c hc]; rfl
  · rw [hinv.2 c hc]; rfl
  · rcases List.mem_append.mp hc with hm | hm
    · rw [hinv.2 c hm]; rfl
    · have hm' := List.mem_singleton.mp hm
      subst hm'
      simp [hinv.1]

/-- Witness for claim C7's amended theorem at the pipe-free group
`"hello\nworld"` with `max_chunk_size = 6`. -/
theorem C7_witness :
    ('|' ∉ tC7w)
    ∧ ((chunkRecs { max_chunk_size := 6, overlap := 200 } tC7w emptyDict).all
        fun c => c.table_header.isNone) = true :=
  ⟨by decide, C7_amended { max_chunk_size := 6, overlap := 200 } tC7w emptyDict (by decide)⟩

/-- Counterexample to claim C7 as stated: chunking `tC7` (a 2-line table, one
data row, then five prose lines) with `max_chunk_size = 12` emits a sixth
chunk `"aaa\nbbb\nccc\nddd\neee\nfff"` that contains no pipe character — no
table content at all — yet its `table_header` is still the stale captured
header `"|a|\n|-|"`: the header is never reset to null. -/
theorem C7_counterexample :
    (((chunkRecs { max_chunk_size := 12, overlap := 200 } tC7 emptyDict).getD 5
        dfltChunk).text.all (fun c => decide (c ≠ '|'))) = true
    ∧ ((chunkRecs { max_chunk_size := 12, overlap := 200 } tC7 emptyDict).getD 5
        dfltChunk).table_header = some ("|a|\n|-|".data) := by
  decide

/-! ### Claim C9: the configured overlap is ignored -/

theorem chunkStep_overlap_eq (mx o1 o2 : Int) (st : ChunkState) (l : List Char)
    (n : Option (List Char)) :
    chunkStep { max_chunk_size := mx, overlap := o1 } st l n
      = chunkStep { max_chunk_size := mx, overlap := o2 } st l n := rfl

theorem chunkLoop_overlap_eq (mx o1 o2 : Int) (ls : List (List Char)) :
    ∀ st : ChunkState,
    chunkLoop { max_chunk_size := mx, overlap := o1 } st ls
      = chunkLoop { max_chunk_size := mx, overlap := o2 } st ls := by
  induction ls with
  | nil => intro st; rfl
  | cons l ls ih =>
    intro st
    simp only [chunkLoop]
    rw [chunkStep_overlap_eq mx o1 o2 st l ls.head?]
    exact ih _

/-- Claim C9: for any two values of the configured `overlap` parameter (and
the same `max_chunk_size`), the chunker produces identical output on every
group text and base metadata, and the whole pipeline produces identical
output on every page list: the retained overlap window is the fixed 5-line
constant, and `self.overlap` is never read. -/
theorem C9_overlap_irrelevant (mx o1 o2 : Int) (text : List Char) (m : PyDict)
    (pages : List Page) :
    chunk_with_table_context { max_chunk_size := mx, overlap := o1 } text m
      = chunk_with_table_context { max_chunk_size := mx, overlap := o2 } text m
    ∧ process_pages { max_chunk_size := mx, overlap := o1 } pages
      = process_pages { max_chunk_size := mx, overlap := o2 } pages := by
  have hrecs : ∀ (t : List Char) (mm : PyDict),
      chunkRecs { max_chunk_size := mx, overlap := o1 } t mm
        = chunkRecs { max_chunk_size := mx, overlap := o2 } t mm := by
    intro t mm
    unfold chunkRecs
    rw [chunkLoop_overlap_eq mx o1 o2 (splitNL t) (initState mm)]
  have hctx : ∀ (t : List Char) (mm : PyDict),
      chunk_with_table_context { max_chunk_size := mx, overlap := o1 } t mm
        = chunk_with_table_context { max_chunk_size := mx, overlap := o2 } t mm := by
    intro t mm
    unfold chunk_with_table_context
    rw [hrecs]
  refine ⟨hctx text m, ?_⟩
  unfold process_pages
  simp only [hctx]

/-! ### Claim C10: the metadata spread overrides computed fields -/

theorem map_const_replicate {α β : Type} (l : List α) (b : β) :
    l.map (fun _ => b) = List.replicate l.length b := by
  induction l with
  | nil => rfl
  | cons a l ih => simp [List.replicate, ih]

/-- Claim C10: every key present in the base metadata keeps its metadata value
in every emitted chunk dictionary — `{..., **metadata}` spreads the metadata
last, so on a key collision (including `"text"`, `"section"`,
`"table_header"`) the metadata value overrides the chunker's computed one. -/
theorem C10_metadata_overrides (cfg : ChunkerConfig) (text : List Char) (m : PyDict)
    (k : String) (v : PyVal) (h : m k = some v) :
    (chunk_with_table_context cfg text m).map (fun d => d k)
      = List.replicate ((chunk_with_table_context cfg text m).length) (some v) := by
  unfold chunk_with_table_context
  rw [List.map_map, List.length_map]
  have hfn : ((fun d : PyDict => d k) ∘ fun c => chunkDict c m) = fun _ => some v := by
    funext c
    simp [chunkDict, h]
  rw [hfn, map_const_replicate]

/-- Witness for claim C10 at a metadata dictionary carrying a colliding
`"text"` key: every chunk dictionary returns the metadata's value. -/
theorem C10_witness :
    (chunk_with_table_context { max_chunk_size := 6, overlap := 200 } tC10 dC10).map
        (fun d => d "text")
      = List.replicate
          ((chunk_with_table_context { max_chunk_size := 6, overlap := 200 }
            tC10 dC10).length)
          (some (PyVal.str ['X'])) :=
  C10_metadata_overrides { max_chunk_size := 6, overlap := 200 } tC10 dC10 "text"
    (PyVal.str ['X']) rfl

/-! ### Splitting and stripping lemmas used by the claim-C3 proofs -/

theorem splitNL_no_nl (l : List Char) (h : '\n' ∉ l) : splitNL l = [l] := by
  induction l with
  | nil => rfl
  | cons c cs ih =>
    have hc : ¬c = '\n' := fun e => h (e ▸ List.mem_cons_self c cs)
    have ih' := ih (fun hm => h (List.mem_cons_of_mem _ hm))
    simp [splitNL, hc, ih']

theorem splitNL_append_nl (a rest : List Char) (h : '\n' ∉ a) :
    splitNL (a ++ '\n' :: rest) = a :: splitNL rest := by
  induction a with
  | nil => simp [splitNL]
  | cons c cs ih =>
    have hc : ¬c = '\n' := fun e => h (e ▸ List.mem_cons_self c cs)
    have ih' := ih (fun hm => h (List.mem_cons_of_mem _ hm))
    simp [splitNL, hc, ih']

theorem splitNL_joinNL (ls : List (List Char)) (h : ∀ l ∈ ls, '\n' ∉ l)
    (hne : ls ≠ []) : splitNL (joinNL ls) = ls := by
  induction ls with
  | nil => exact absurd rfl hne
  | cons a ls ih =>
    cases ls with
    | nil =>
      have : joinNL [a] = a := by simp [joinNL, pjoinNL]
      rw [this]
      exact splitNL_no_nl a (h a (List.mem_cons_self a []))
    | cons b t =>
      have hj : joinNL (a :: b :: t) = a ++ '\n' :: joinNL (b :: t) := by
        simp [joinNL, pjoinNL]
      rw [hj, splitNL_append_nl a _ (h a (List.mem_cons_self _ _)),
        ih (fun l hl => h l (List.mem_cons_of_mem _ hl)) (by simp)]

theorem dropWhile_all_false (p : Char → Bool) (l : List Char)
    (h : ∀ c ∈ l, p c = false) : l.dropWhile p = l := by
  cases l with
  | nil => rfl
  | cons a t =>
    rw [List.dropWhile_cons, h a (List.mem_cons_self a t)]
    simp

theorem stripPy_no_ws (l : List Char) (h : ∀ c ∈ l, pyWS c = false) :
    stripPy l = l := by
  unfold stripPy
  rw [dropWhile_all_false pyWS l h]
  rw [dropWhile_all_false pyWS l.reverse (fun c hc => h c (List.mem_reverse.mp hc))]
  exact List.reverse_reverse l

theorem mem_dropWhile_of_neg (p : Char → Bool) (l : List Char) (c : Char)
    (hc : c ∈ l) (hp : p c = false) : c ∈ l.dropWhile p := by
  induction l with
  | nil => exact absurd hc (List.not_mem_nil c)
  | cons a t ih =>
    by_cases ha : p a
    · rw [List.dropWhile_cons, ha]
      rcases List.mem_cons.mp hc with h' | h'
      · subst h'; rw [hp] at ha; exact absurd ha (by simp)
      · exact ih h'
    · rw [List.dropWhile_cons]
      simp only [ha, Bool.false_eq_true, if_false]
      exact hc

theorem stripPy_isEmpty_false (l : List Char) (c : Char) (hc : c ∈ l)
    (hp : pyWS c = false) : (stripPy l).isEmpty = false := by
  have h1 : c ∈ l.dropWhile pyWS := mem_dropWhile_of_neg pyWS l c hc hp
  have h2 : c ∈ (l.dropWhile pyWS).reverse := List.mem_reverse.mpr h1
  have h3 : c ∈ (l.dropWhile pyWS).reverse.dropWhile pyWS :=
    mem_dropWhile_of_neg pyWS _ c h2 hp
  have h4 : c ∈ stripPy l := List.mem_reverse.mpr h3
  rcases e : stripPy l with _ | ⟨a, t⟩
  · rw [e] at h4; exact absurd h4 (List.not_mem_nil c)
  · rfl

theorem mem_joinNL_head (buf : List (List Char)) (x : List Char) (c : Char)
    (hh : buf.head? = some x) (hc : c ∈ x) : c ∈ joinNL buf := by
  cases buf with
  | nil => simp at hh
  | cons a t =>
    simp only [List.head?_cons, Option.some_inj] at hh
    subst hh
    exact List.mem_append_left _ hc

/-! ### Claim C3: the 3200-character single-table group -/

/-- Claim C3 (amended): the claim's conclusion holds on a concrete group of
the described shape with short rows — `tC3`, a 3200-character text whose
first line is a 78-character table row, second line a 78-character table
separator, and remaining 38 lines table rows — with `max_chunk_size = 1500`:
the chunker emits exactly 3 chunks, and every chunk after the first (each
still containing table rows) begins with the exact 157-character two-line
header, which is also the header extracted at the table's first appearance.
Universally over all groups of the claimed shape the claim is false: one
sufficiently long row defeats the 3-chunk lower bound (see the
counterexample). -/
theorem C3_amended_concrete :
    tC3.length = 3200
    ∧ (chunkRecs { max_chunk_size := 1500, overlap := 200 } tC3 emptyDict).length = 3
    ∧ ((chunkRecs { max_chunk_size := 1500, overlap := 200 } tC3 emptyDict).getD 1
        dfltChunk).text.take 157 = hdrC3
    ∧ ((chunkRecs { max_chunk_size := 1500, overlap := 200 } tC3 emptyDict).getD 2
        dfltChunk).text.take 157 = hdrC3
    ∧ extract_table_header tC3 = some hdrC3 := by
  have hnl : ∀ l ∈ linesC3, '\n' ∉ l := by
    intro l hl
    simp only [linesC3, List.mem_cons, List.mem_append, List.mem_replicate,
      List.mem_singleton] at hl
    rcases hl with rfl | rfl | ⟨_, rfl⟩ | rfl | h
    · decide
    · decide
    · decide
    · decide
    · exact absurd h (List.not_mem_nil l)
  have hsplitg : splitNL tC3 = linesC3 := splitNL_joinNL linesC3 hnl (by simp [linesC3])
  have hc1 : (chunkLoop { max_chunk_size := 1500, overlap := 200 } (initState emptyDict)
      linesC3).current_chunk_lines.isEmpty = false := by decide
  have hhead : (chunkLoop { max_chunk_size := 1500, overlap := 200 } (initState emptyDict)
      linesC3).current_chunk_lines.head? = some rowHC3 := by decide
  have hmem : '|' ∈ joinNL (chunkLoop { max_chunk_size := 1500, overlap := 200 }
      (initState emptyDict) linesC3).current_chunk_lines :=
    mem_joinNL_head _ rowHC3 '|' hhead (by decide)
  have hc2 : (stripPy (joinNL (chunkLoop { max_chunk_size := 1500, overlap := 200 }
      (initState emptyDict) linesC3).current_chunk_lines)).isEmpty = false :=
    stripPy_isEmpty_false _ '|' hmem (by decide)
  have hrecs : chunkRecs { max_chunk_size := 1500, overlap := 200 } tC3 emptyDict
      = (chunkLoop { max_chunk_size := 1500, overlap := 200 } (initState emptyDict)
          linesC3).chunks ++
        [{ text := joinNL (chunkLoop { max_chunk_size := 1500, overlap := 200 }
              (initState emptyDict) linesC3).current_chunk_lines
           section_ := (chunkLoop { max_chunk_size := 1500, overlap := 200 }
              (initState emptyDict) linesC3).current_section
           table_header := (chunkLoop { max_chunk_size := 1500, overlap := 200 }
              (initState emptyDict) linesC3).current_table_header }] := by
    unfold chunkRecs
    rw [hsplitg]
    dsimp only
    rw [if_neg (by simp [hc1]), if_neg (by simp [hc2])]
  have hL2 : (chunkLoop { max_chunk_size := 1500, overlap := 200 } (initState emptyDict)
      linesC3).chunks.length = 2 := by decide
  have hsum : sumSize linesC3 = 3201 := by decide
  have hjl := joinNL_length linesC3 (by simp [linesC3])
  refine ⟨?_, ?_, ?_, ?_, ?_⟩
  · show (joinNL linesC3).length = 3200
    omega
  · rw [hrecs, List.length_append, hL2]; rfl
  · rw [hrecs]; decide
  · rw [hrecs]; decide
  · unfold extract_table_header
    rw [hsplitg]
    decide

/-- Counterexample to claim C3 as stated: `tC3bad` has total length 3200, its
first line is a table row, its second line a table separator, and its single
remaining line a 3192-character table row — a group of exactly the claimed
shape — yet with `max_chunk_size = 1500` the chunker emits only 2 chunks,
not at least 3: the whole text fits in the buffer until the final line, so
there is a single flush plus the trailing-buffer chunk. -/
theorem C3_counterexample :
    tC3bad.length = 3200
    ∧ is_table_row rowH3b = true
    ∧ is_table_separator sep3b = true
    ∧ is_table_row bigRowC3 = true
    ∧ splitNL tC3bad = [rowH3b, sep3b, bigRowC3]
    ∧ (chunkRecs { max_chunk_size := 1500, overlap := 200 } tC3bad emptyDict).length
        = 2 := by
  have hchars : ∀ c ∈ bigRowC3, c = '|' ∨ c = 'a' := by
    intro c hc
    simp only [bigRowC3, List.mem_cons, List.mem_append, List.mem_replicate,
      List.mem_singleton] at hc
    tauto
  have hnws : ∀ c ∈ bigRowC3, pyWS c = false := by
    intro c hc
    rcases hchars c hc with h | h <;> subst h <;> decide
  have hnonl : '\n' ∉ bigRowC3 := by
    intro hm
    rcases hchars _ hm with h | h <;> exact absurd h (by decide)
  have hstrip : stripPy bigRowC3 = bigRowC3 := stripPy_no_ws _ hnws
  have hlen : bigRowC3.length = 3192 := by
    show (List.replicate 3190 'a' ++ ['|']).length + 1 = 3192
    rw [List.length_append, List.length_replicate]
    decide
  have hrow : is_table_row bigRowC3 = true := by
    unfold is_table_row
    rw [hstrip]
    have h1 : '|' ∈ bigRowC3 := by
      show '|' ∈ '|' :: (List.replicate 3190 'a' ++ ['|'])
      exact List.mem_cons_self _ _
    have h2 : bigRowC3.head? = some '|' := rfl
    rw [decide_eq_true h1, decide_eq_true h2]
    rfl
  have hsep : is_table_separator bigRowC3 = false := by
    unfold is_table_separator
    rw [hstrip]
    show (if bigRowC3.head? = some '|' then _ else false) = false
    rw [if_pos (show bigRowC3.head? = some '|' from rfl)]
    rw [show bigRowC3.tail = List.replicate 3190 'a' ++ ['|'] from rfl]
    rw [show List.replicate 3190 'a' = 'a' :: List.replicate 3189 'a' from rfl]
    rw [List.cons_append, List.takeWhile_cons]
    rw [if_neg (show ¬(sepChar 'a' = true) from by decide)]
    rw [List.isEmpty_nil, Bool.not_true, Bool.false_and]
  have hth : is_table_header sep3b (some bigRowC3) = false := by
    unfold is_table_header
    simp [show is_table_row sep3b = true from by decide, hsep]
  have hdrKeep : updHeader (some hdr3b) sep3b (some bigRowC3) = some hdr3b := by
    unfold updHeader
    simp [hth]
  have hdrKeep3 : updHeader (some hdr3b) bigRowC3 none = some hdr3b := by
    unfold updHeader is_table_header
    simp
  have hsecKeep : updSection (PyVal.str []) bigRowC3 = PyVal.str [] := by
    unfold updSection
    rw [hstrip]
    rw [if_neg (by decide)]
  have hreset : resetBuf (some hdr3b) bigRowC3 ([rowH3b, sep3b] ++ [bigRowC3])
      = [rowH3b, sep3b, rowH3b, sep3b, bigRowC3] := by
    unfold resetBuf
    dsimp only
    rw [show (([rowH3b, sep3b] ++ [bigRowC3] : List (List Char)).length - 5) = 0 from rfl]
    rw [List.drop_zero]
    rw [if_pos (show (!hdr3b.isEmpty && is_table_row bigRowC3) = true by
      rw [hrow]; decide)]
    rw [show splitNL hdr3b = [rowH3b, sep3b] from by decide]
    rfl
  have e1 : chunkStep { max_chunk_size := 1500, overlap := 200 } (initState emptyDict)
      rowH3b (some sep3b)
      = { current_section := PyVal.str [], current_table_header := some hdr3b,
          current_chunk_lines := [rowH3b], current_size := 4, chunks := [] } := by
    decide
  have e2 : chunkStep { max_chunk_size := 1500, overlap := 200 }
      { current_section := PyVal.str [], current_table_header := some hdr3b,
        current_chunk_lines := [rowH3b], current_size := 4, chunks := [] }
      sep3b (some bigRowC3)
      = { current_section := PyVal.str [], current_table_header := some hdr3b,
          current_chunk_lines := [rowH3b, sep3b], current_size := 8, chunks := [] } := by
    unfold chunkStep
    rw [if_neg (by decide)]
    rw [hdrKeep]
    decide
  have e3 : chunkStep { max_chunk_size := 1500, overlap := 200 }
      { current_section := PyVal.str [], current_table_header := some hdr3b,
        current_chunk_lines := [rowH3b, sep3b], current_size := 8, chunks := [] }
      bigRowC3 none
      = { current_section := PyVal.str [],
          current_table_header := some hdr3b,
          current_chunk_lines := [rowH3b, sep3b, rowH3b, sep3b, bigRowC3],
          current_size := sumSize [rowH3b, sep3b, rowH3b, sep3b, bigRowC3],
          chunks := [{ text := joinNL [rowH3b, sep3b, bigRowC3],
                       section_ := PyVal.str [],
                       table_header := some hdr3b }] } := by
    unfold chunkStep
    split
    · rw [hdrKeep3, hsecKeep, hreset]
      rfl
    · rename_i h
      rw [hlen] at h
      exact absurd (by decide) h
  have hloop : chunkLoop { max_chunk_size := 1500, overlap := 200 } (initState emptyDict)
      [rowH3b, sep3b, bigRowC3]
      = { current_section := PyVal.str [],
          current_table_header := some hdr3b,
          current_chunk_lines := [rowH3b, sep3b, rowH3b, sep3b, bigRowC3],
          current_size := sumSize [rowH3b, sep3b, rowH3b, sep3b, bigRowC3],
          chunks := [{ text := joinNL [rowH3b, sep3b, bigRowC3],
                       section_ := PyVal.str [],
                       table_header := some hdr3b }] } := by
    simp only [chunkLoop, List.head?_cons, List.head?_nil]
    rw [e1, e2, e3]
  have hnl3 : ∀ l ∈ [rowH3b, sep3b, bigRowC3], '\n' ∉ l := by
    intro l hl
    simp only [List.mem_cons] at hl
    rcases hl with rfl | rfl | rfl | h
    · decide
    · decide
    · exact hnonl
    · exact absurd h (List.not_mem_nil l)
  have hsplitb : splitNL tC3bad = [rowH3b, sep3b, bigRowC3] :=
    splitNL_joinNL _ hnl3 (by simp)
  have hmem3 : '|' ∈ joinNL [rowH3b, sep3b, rowH3b, sep3b, bigRowC3] :=
    mem_joinNL_head _ rowH3b '|' rfl (by decide)
  have hc2b : (stripPy (joinNL [rowH3b, sep3b, rowH3b, sep3b, bigRowC3])).isEmpty
      = false := stripPy_isEmpty_false _ '|' hmem3 (by decide)
  have hrecsb : (chunkRecs { max_chunk_size := 1500, overlap := 200 } tC3bad
      emptyDict).length = 2 := by
    unfold chunkRecs
    rw [hsplitb]
    dsimp only
    rw [hloop]
    dsimp only
    rw [if_neg (by decide)]
    rw [if_neg (show ¬((stripPy (joinNL [rowH3b, sep3b, rowH3b, sep3b,
        bigRowC3])).isEmpty = true) by rw [hc2b]; exact Bool.false_ne_true)]
    rfl
  have hsc : ∀ (l : List Char) (ls : List (List Char)),
      sumSize (l :: ls) = l.length + 1 + sumSize ls := fun _ _ => rfl
  have hsum3 : sumSize [rowH3b, sep3b, bigRowC3] = 3201 := by
    rw [hsc, hsc, hsc, hlen]
    decide
  have hjl3 := joinNL_length [rowH3b, sep3b, bigRowC3] (by simp)
  refine ⟨?_, by decide, by decide, hrow, hsplitb, hrecsb⟩
  show (joinNL [rowH3b, sep3b, bigRowC3]).length = 3200
  omega
